import Mathlib

/-!
Shallow embedding of the HCP-Dashboard analytical pipeline
(`src/hcp_utils.py`, consumed by `src/app.py`).

Tables (pandas DataFrames) are modelled as lists of rows, one structure per
pipeline stage.  Numeric cells are `Int`; a missing cell (pandas `NaN`,
produced by `Series.map` on an unmapped key) is `Option.none`.

Library semantics baked into the embedding (with justification):

* `df.sort_values('score', ascending=False)` (pandas) computes, via
  `nargsort`, the indices of a descending sort with `NaN` keys placed last
  in their original order (`na_position='last'`): pandas reverses the
  non-NaN block, runs `np.argsort` ascending with the default
  `kind='quicksort'`, maps through the reversed indices and reverses the
  result (so a stable underlying argsort yields a stable descending order,
  pandas GH 6399).  NumPy's quicksort is an introsort: ranges of at most 16
  elements (`pr - pl <= SMALL_QUICKSORT = 15`) are handled by its stable
  insertion-sort phase, while larger ranges go through a median-of-3 Hoare
  partition whose index swaps reorder tied keys.  The embedding translates
  that algorithm (`npAquicksortFuel`): the three median-of-3 conditional
  swaps, the pivot-to-`n-2` swap, the `scanUp`/`scanDown` exchange loop,
  the final pivot swap, and insertion sort on ranges of at most 16.  Known
  deviations, none observable on the executions any theorem below touches:
  the scan loops are bounded by the list ends (the C code relies on the
  sentinels the median-of-3 pass establishes, within whose invariant the
  bound never binds); structural recursion fuel stands in for the C loop
  and stack and is never exhausted; the two partitions are recursed in
  order rather than smaller-first through an explicit stack (disjoint
  ranges, identical result); the insertion-sort phase is written as the
  standard stable ascending insertion sort, which computes the same result
  as NumPy's imperative shift-based one; and the introsort depth-limit
  switch to heapsort (after `2*msb(n)` partition rounds on one path) is
  modelled by continuing with quicksort — when it fires in NumPy it changes
  only the order of tied keys, and no theorem below asserts anything about
  tie order outside the insertion-sort regime except one concrete
  counterexample, which both NumPy and the model execute through the
  partition path shown here.

* `pd.cut(x, bins, labels, include_lowest=True)` with its default
  `duplicates='raise'` first checks the bin edges for duplicates and raises
  `ValueError("Bin edges must be unique: ...")` when any edge repeats (the
  check fires whenever `len(np.unique(bins)) < len(bins)` and
  `len(bins) != 2`).  Otherwise each value `x` is binned by
  `bins.searchsorted(x, side='left')`, ids equal to `1` after the
  `include_lowest` fix-up for `x == bins[0]`, and ids of `0` or `len(bins)`
  become `NaN`; label `ids - 1` is returned.  This is embedded by
  `cutValue`, and the duplicate-edge check by the guard in `segment_hcps`.

* `int(n*0.2)` and `int(n*0.5)` in Python truncate a float product toward
  zero.  `0.5` is exact in binary; `0.2` rounds up by `~1.1e-17`, and for
  every table size `n` far below `2^52` the truncated product equals the
  integer floor, so both are embedded as Nat division `n / 5` and `n / 2`.

* `rank_hcps` mutates its argument: `df['score'] = ...` adds a column to the
  caller's object in place, while `df = df.sort_values(...)` only rebinds
  the local name to a fresh sorted copy.  The embedding returns a pair: the
  caller-visible state of the argument after the call, and the returned
  ranked table.

* The NumPy and Python `random` module generators are global mutable
  streams.  They are modelled as explicitly threaded states stepped by a
  concrete deterministic function (`lcg`); the exact numeric stream of
  MT19937 is abstracted, the seeding and threading structure is kept
  faithful (`np.random.seed(42)` / `random.seed(42)` overwrite the incoming
  global states with a fixed constant at function entry).
-/

/-- One HCP record: the five base columns of the working table
(`NPI Id`, `speciality`, `rx value`, `state_code`, `writing_behavior`). -/
structure HCP where
  npi_id : String
  speciality : String
  rx_value : Int
  state_code : String
  writing_behavior : String
deriving DecidableEq, Repr

/-- A row after `df['score'] = df['rx value'] * df['writing_behavior'].map(score_map)`:
the base record plus the `score` column (`none` models pandas `NaN`). -/
structure ScoredRow where
  hcp : HCP
  score : Option Int
deriving DecidableEq, Repr

/-- A row of the table returned by `rank_hcps`: base record, `score`, and
`priority_rank`. -/
structure RankedRow where
  hcp : HCP
  score : Option Int
  priority_rank : Nat
deriving DecidableEq, Repr

/-- A row of the table returned by `segment_hcps`: the ranked row plus the
`segment` column (`none` models a `NaN` produced by out-of-bins values). -/
structure SegRow where
  hcp : HCP
  score : Option Int
  priority_rank : Nat
  segment : Option String
deriving DecidableEq, Repr

/-- `score_map = {'High': 3, 'Medium': 2, 'Low': 1}` looked up through
`Series.map`: an unmapped key yields `NaN`, i.e. `none`. -/
def scoreMap (wb : String) : Option Int :=
  if wb = "High" then some 3
  else if wb = "Medium" then some 2
  else if wb = "Low" then some 1
  else none

/-- The `score` cell of one record:
`rx value * writing_behavior.map(score_map)`; multiplication by `NaN`
propagates `NaN`. -/
def scoreOf (h : HCP) : Option Int :=
  (scoreMap h.writing_behavior).map (fun w => h.rx_value * w)

/-- Effect of `df['score'] = df['rx value'] * df['writing_behavior'].map(score_map)`
on the whole table (row order unchanged, one score per row). -/
def addScoreColumn (df : List HCP) : List ScoredRow :=
  df.map fun h => { hcp := h, score := scoreOf h }

/-- Sort key of a row whose score is present; the default is irrelevant
because the sort only touches rows with `score.isSome`. -/
def keyD (r : ScoredRow) : Int := r.score.getD 0

/-- Swap the entries at positions `i` and `j` (the `SWAP(*pi, *pj)` of the
C sort); out-of-range positions leave the list unchanged (never hit by the
algorithm). -/
def lswap {α : Type} (l : List α) (i j : Nat) : List α :=
  match l.get? i, l.get? j with
  | some x, some y => (l.set i y).set j x
  | _, _ => l

/-- Sort key of the row at position `i` (defaulting to 0 outside the list;
the algorithm never reads outside). -/
def keyAt (l : List ScoredRow) (i : Nat) : Int := ((l.get? i).map keyD).getD 0

/-- One conditional exchange of the median-of-3 pass:
`if (v[i] < v[j]) SWAP(i, j)`. -/
def condSwap (l : List ScoredRow) (i j : Nat) : List ScoredRow :=
  if keyAt l i < keyAt l j then lswap l i j else l

/-- The `do ++pi; while (v[*pi] < vp)` scan: from position `i` upward, the
first position whose key is not below the pivot.  Bounded by the list end
(which the C sentinel makes unreachable); the structural fuel, called with
`l.length`, is never exhausted. -/
def scanUp (l : List ScoredRow) (vp : Int) : Nat → Nat → Nat
  | i, 0 => i
  | i, fuel + 1 =>
    if i < l.length then
      if keyAt l i < vp then scanUp l vp (i + 1) fuel else i
    else i

/-- The `do --pj; while (vp < v[*pj])` scan: from position `j` downward, the
first position whose key is not above the pivot (bounded at 0). -/
def scanDown (l : List ScoredRow) (vp : Int) : Nat → Nat → Nat
  | j, 0 => j
  | j, fuel + 1 =>
    if 0 < j then
      if vp < keyAt l j then scanDown l vp (j - 1) fuel else j
    else j

/-- The Hoare exchange loop of the partition: advance both scans, stop when
they cross (returning the final `pi`), otherwise swap and continue. -/
def hoareLoop (vp : Int) : Nat → List ScoredRow → Nat → Nat → List ScoredRow × Nat
  | 0, l, pi, _ => (l, pi)
  | fuel + 1, l, pi, pj =>
    let pi2 := scanUp l vp (pi + 1) l.length
    let pj2 := scanDown l vp (pj - 1) l.length
    if pj2 ≤ pi2 then (l, pi2)
    else hoareLoop vp fuel (lswap l pi2 pj2) pi2 pj2

/-- One partition round of NumPy's quicksort on a range of length `n ≥ 17`:
median-of-3 over positions `0, (n-1)/2, n-1`, pivot value read at the
middle, pivot parked at `n-2`, the exchange loop started from `(0, n-2)`,
and the final pivot swap.  Returns the rearranged range and the pivot
position. -/
def partitionStep (l : List ScoredRow) : List ScoredRow × Nat :=
  let n := l.length
  let pm := (n - 1) / 2
  let l3 := condSwap (condSwap (condSwap l pm 0) (n - 1) pm) pm 0
  let vp := keyAt l3 pm
  let l4 := lswap l3 pm (n - 2)
  let res := hoareLoop vp n l4 0 (n - 2)
  (lswap res.1 res.2 (n - 2), res.2)

/-- Insert a row into an ascending-sorted list before the first row whose
key is at least its own (an earlier row therefore stays before later
equal-key rows: stable). -/
def orderedInsertAsc (a : ScoredRow) : List ScoredRow → List ScoredRow
  | [] => [a]
  | b :: l => if keyD a ≤ keyD b then a :: b :: l else b :: orderedInsertAsc a l

/-- The insertion-sort phase, run on ranges of at most 16 elements: the
standard stable ascending insertion sort. -/
def insertionSortAsc : List ScoredRow → List ScoredRow
  | [] => []
  | a :: l => orderedInsertAsc a (insertionSortAsc l)

/-- NumPy `argsort(kind='quicksort')` acting on the rows themselves (the
tags travel with their keys): a range of at most 16 elements
(`pr - pl <= SMALL_QUICKSORT`) is insertion-sorted, a larger one is
partitioned and both sides recursed.  The fuel bounds the recursion depth
and is never exhausted from `l.length`. -/
def npAquicksortFuel : Nat → List ScoredRow → List ScoredRow
  | 0, l => l
  | fuel + 1, l =>
    if l.length ≤ 16 then insertionSortAsc l
    else
      let pr := partitionStep l
      npAquicksortFuel fuel (pr.1.take pr.2) ++ (pr.1.drop pr.2).take 1
        ++ npAquicksortFuel fuel (pr.1.drop (pr.2 + 1))

/-- `np.argsort(kind='quicksort')`, ascending. -/
def npArgsortAsc (l : List ScoredRow) : List ScoredRow := npAquicksortFuel l.length l

/-- Model of `df.sort_values('score', ascending=False)` (defaults
`kind='quicksort'`, `na_position='last'`), following pandas `nargsort`:
reverse the non-`NaN` block, argsort it ascending, reverse the result, then
append the `NaN`-score rows in their original order. -/
def sortValuesScoreDesc (xs : List ScoredRow) : List ScoredRow :=
  (npArgsortAsc ((xs.filter fun r => r.score.isSome).reverse)).reverse
    ++ xs.filter fun r => r.score.isNone

/-- `df.reset_index(drop=True)` followed by `df['priority_rank'] = df.index + 1`:
the row at 0-based position `i` (counted from `k = 1`) gets rank `k + i`. -/
def rankFrom (k : Nat) : List ScoredRow → List RankedRow
  | [] => []
  | r :: rs => { hcp := r.hcp, score := r.score, priority_rank := k } :: rankFrom (k + 1) rs

/-- `rank_hcps(df)` from `src/hcp_utils.py`.  First component: the state of
the caller's argument after the call (the in-place `df['score'] = ...`
assignment is the only mutation; the sort produces a fresh copy).  Second
component: the returned table, sorted by score descending and carrying
`priority_rank`. -/
def rank_hcps (df : List HCP) : List ScoredRow × List RankedRow :=
  let withScore := addScoreColumn df
  let sorted := sortValuesScoreDesc withScore
  (withScore, rankFrom 1 sorted)

/-- `bins.searchsorted(x, side='left')` for an ascending-sorted `bins`:
the number of edges strictly below `x`. -/
def searchsortedLeft (bins : List Int) (x : Int) : Nat :=
  (bins.filter fun b => decide (b < x)).length

/-- Per-value semantics of
`pd.cut(x, bins=bins, labels=labels, include_lowest=True)` (default
`right=True`): bin id by left-searchsorted position, the lowest edge made
inclusive, ids falling outside `1 .. len(bins) - 1` giving `NaN`. -/
def cutValue (bins : List Int) (labels : List String) (x : Int) : Option String :=
  let i0 := searchsortedLeft bins x
  let i := if bins.head? = some x then 1 else i0
  if i = 0 ∨ i = bins.length then none
  else labels.get? (i - 1)

/-- Error message of pandas `_bins_to_cuts` under the default
`duplicates='raise'`. -/
def binEdgesError : String := "Bin edges must be unique"

/-- `segment_hcps(df)` from `src/hcp_utils.py`:
`bins = [0, int(n*0.2), int(n*0.5), n]` (embedded as `[0, n/5, n/2, n]`,
see the header note on float truncation) and
`df['segment'] = pd.cut(df['priority_rank'], bins, labels, include_lowest=True)`.
`pd.cut` raises `ValueError` when the computed bin edges contain duplicates,
which happens exactly for `n ≤ 4`; the error is embedded as `Except.error`. -/
def segment_hcps (df : List RankedRow) : Except String (List SegRow) :=
  let n := df.length
  let bins : List Int := [0, ((n / 5 : Nat) : Int), ((n / 2 : Nat) : Int), (n : Int)]
  let labels : List String := ["Top 20%", "Middle 30%", "Bottom 50%"]
  if bins.dedup.length < bins.length then
    Except.error binEdgesError
  else
    Except.ok (df.map fun r =>
      { hcp := r.hcp, score := r.score, priority_rank := r.priority_rank,
        segment := cutValue bins labels ((r.priority_rank : Nat) : Int) })

/-- `channel_affinity(df)` from `src/hcp_utils.py`, applied in `app.py` to the
segmented table: one output row `(NPI Id, channel_affinity)` per input row,
"In-person" when `writing_behavior == 'High'` or `speciality` is
`'Cardiology'` or `'Oncology'`, else "Email". -/
def channel_affinity (df : List SegRow) : List (String × String) :=
  df.map fun r =>
    (r.hcp.npi_id,
     if r.hcp.writing_behavior = "High" ∨ r.hcp.speciality ∈ ["Cardiology", "Oncology"]
     then "In-person" else "Email")

/-- Concrete deterministic step standing in for the library pseudorandom
generators (MT19937 / Python `random`); a 64-bit linear congruential step. -/
def lcg (s : Nat) : Nat :=
  (6364136223846793005 * s + 1442695040888963407) % 18446744073709551616

/-- The two module-global generator states (`numpy.random` and `random`),
threaded explicitly through the embedding. -/
structure RNG where
  npState : Nat
  pyState : Nat
deriving DecidableEq, Repr

/-- The fixed list of 11 specialties sampled by `synthea_simulator`. -/
def specialtiesList : List String :=
  ["Cardiology", "Dermatology", "Endocrinology", "Family Medicine", "Gastroenterology",
   "Internal Medicine", "Neurology", "Oncology", "Pediatrics", "Psychiatry", "Surgery"]

/-- The fixed list of 10 state codes sampled by `synthea_simulator`. -/
def statesList : List String :=
  ["CA", "NY", "TX", "FL", "IL", "PA", "OH", "GA", "NC", "MI"]

/-- `random.choices(opts, k=k)`: `k` uniform draws from `opts`, threading the
`random`-module state. -/
def pyChoices (opts : List String) : Nat → Nat → List String × Nat
  | 0, s => ([], s)
  | k + 1, s =>
    let s1 := lcg s
    let (rest, s2) := pyChoices opts k s1
    (opts.getD (s1 % opts.length) "" :: rest, s2)

/-- `np.random.lognormal(mean=9, sigma=0.7, size=k).astype(int)`: `k`
non-negative integer draws (the truncated log-normal magnitudes are
abstracted by the modelled stream), threading the NumPy state. -/
def npLognormalInts : Nat → Nat → List Int × Nat
  | 0, s => ([], s)
  | k + 1, s =>
    let s1 := lcg s
    let (rest, s2) := npLognormalInts k s1
    (((s1 % 65536 : Nat) : Int) :: rest, s2)

/-- `np.random.choice(['High','Medium','Low'], size=k, p=[0.3,0.5,0.2])`:
`k` weighted draws (3/10, 5/10, 2/10), threading the NumPy state. -/
def npChoiceWB : Nat → Nat → List String × Nat
  | 0, s => ([], s)
  | k + 1, s =>
    let s1 := lcg s
    let (rest, s2) := npChoiceWB k s1
    ((if s1 % 10 < 3 then "High" else if s1 % 10 < 8 then "Medium" else "Low") :: rest, s2)

/-- Column-wise assembly of the generated `DataFrame`: the row at position
`i` takes the `i`-th entry of each column list. -/
def buildRows : List String → List String → List Int → List String → List String → List HCP
  | npi :: npis, sp :: sps, rx :: rxs, st :: sts, wb :: wbs =>
    { npi_id := npi, speciality := sp, rx_value := rx, state_code := st,
      writing_behavior := wb } :: buildRows npis sps rxs sts wbs
  | _, _, _, _, _ => []

/-- `synthea_simulator(num_patients=200)` from `src/hcp_utils.py`.  The
incoming global generator states are overwritten by `np.random.seed(42)`
and `random.seed(42)` before any draw, then: ids `1000000000 + i`,
specialties and states via `random.choices`, `rx value` via the log-normal
draw, `writing_behavior` via the weighted choice.  Returns the table and
the final global generator states. -/
def synthea_simulator (g : RNG) (num_patients : Nat) : List HCP × RNG :=
  let _ := g
  let np0 : Nat := 42
  let py0 : Nat := 42
  let npi_ids := (List.range num_patients).map (fun i => toString (1000000000 + i))
  let specsDraw := pyChoices specialtiesList num_patients py0
  let statesDraw := pyChoices statesList num_patients specsDraw.2
  let rxDraw := npLognormalInts num_patients np0
  let wbDraw := npChoiceWB num_patients rxDraw.2
  (buildRows npi_ids specsDraw.1 rxDraw.1 statesDraw.1 wbDraw.1,
   { npState := wbDraw.2, pyState := statesDraw.2 })

/-- `generate_hcp_data(num_hcps=200)`: a direct wrapper around the
simulator. -/
def generate_hcp_data (g : RNG) (num_hcps : Nat) : List HCP × RNG :=
  synthea_simulator g num_hcps

/-! ### Helper lemmas about rank assignment -/

theorem rankFrom_length (k : Nat) (xs : List ScoredRow) :
    (rankFrom k xs).length = xs.length := by
  induction xs generalizing k with
  | nil => rfl
  | cons x xs ih => simp [rankFrom, ih]

theorem rankFrom_map_rank (k : Nat) (xs : List ScoredRow) :
    (rankFrom k xs).map (fun r => r.priority_rank) = List.range' k xs.length := by
  induction xs generalizing k with
  | nil => rfl
  | cons x xs ih => simp [rankFrom, List.range', ih]

theorem rankFrom_map_toScored (k : Nat) (xs : List ScoredRow) :
    (rankFrom k xs).map (fun r => ScoredRow.mk r.hcp r.score) = xs := by
  induction xs generalizing k with
  | nil => rfl
  | cons x xs ih => simp [rankFrom, ih]

theorem rankFrom_map_hcp (k : Nat) (xs : List ScoredRow) :
    (rankFrom k xs).map (fun r => r.hcp) = xs.map (fun r => r.hcp) := by
  induction xs generalizing k with
  | nil => rfl
  | cons x xs ih => simp [rankFrom, ih]

theorem toScored_mem_of_mem_rankFrom {k : Nat} {xs : List ScoredRow} {r : RankedRow}
    (h : r ∈ rankFrom k xs) : ScoredRow.mk r.hcp r.score ∈ xs := by
  have := List.mem_map_of_mem (fun r : RankedRow => ScoredRow.mk r.hcp r.score) h
  rwa [rankFrom_map_toScored] at this

theorem exists_mem_rankFrom_of_mem {k : Nat} {xs : List ScoredRow} {x : ScoredRow}
    (h : x ∈ xs) : ∃ r ∈ rankFrom k xs, r.hcp = x.hcp ∧ r.score = x.score := by
  rw [← rankFrom_map_toScored k xs] at h
  rcases List.mem_map.mp h with ⟨r, hr, hrx⟩
  exact ⟨r, hr, by rw [← hrx], by rw [← hrx]⟩

/-! ### Helper lemmas about the sort -/

theorem cons_set_perm {α : Type} (a y : α) (t : List α) (k : Nat)
    (hy : t.get? k = some y) : (y :: t.set k a).Perm (a :: t) := by
  induction t generalizing k with
  | nil => simp at hy
  | cons b t ih =>
    cases k with
    | zero =>
      have hb : b = y := by simpa using hy
      show (y :: a :: t).Perm (a :: b :: t)
      rw [← hb]
      exact List.Perm.swap a b t
    | succ k =>
      have hy' : t.get? k = some y := by simpa using hy
      show (y :: b :: t.set k a).Perm (a :: b :: t)
      exact ((List.Perm.swap b y _).trans ((ih k hy').cons b)).trans (List.Perm.swap a b t)

theorem set_set_perm {α : Type} {x y : α} :
    ∀ (l : List α) (i j : Nat), l.get? i = some x → l.get? j = some y →
      ((l.set i y).set j x).Perm l := by
  intro l
  induction l with
  | nil => intro i j hx _; simp at hx
  | cons a t ih =>
    intro i j hx hy
    cases i with
    | zero =>
      have hax : a = x := by simpa using hx
      cases j with
      | zero =>
        show (x :: t).Perm (a :: t)
        rw [hax]
      | succ j =>
        have hy' : t.get? j = some y := by simpa using hy
        show (y :: t.set j x).Perm (a :: t)
        rw [hax]
        exact cons_set_perm x y t j hy'
    | succ i =>
      have hx' : t.get? i = some x := by simpa using hx
      cases j with
      | zero =>
        have hay : a = y := by simpa using hy
        show (x :: t.set i y).Perm (a :: t)
        rw [hay]
        exact cons_set_perm y x t i hx'
      | succ j =>
        have hy' : t.get? j = some y := by simpa using hy
        show (a :: (t.set i y).set j x).Perm (a :: t)
        exact (ih i j hx' hy').cons a

theorem lswap_perm {α : Type} (l : List α) (i j : Nat) : (lswap l i j).Perm l := by
  unfold lswap
  split
  next x y hx hy => exact set_set_perm l i j hx hy
  next => exact List.Perm.refl l

theorem condSwap_perm (l : List ScoredRow) (i j : Nat) : (condSwap l i j).Perm l := by
  unfold condSwap
  split
  · exact lswap_perm l i j
  · exact List.Perm.refl l

theorem hoareLoop_perm (vp : Int) :
    ∀ (fuel : Nat) (l : List ScoredRow) (pi pj : Nat),
      ((hoareLoop vp fuel l pi pj).1).Perm l := by
  intro fuel
  induction fuel with
  | zero => intro l pi pj; exact List.Perm.refl l
  | succ fuel ih =>
    intro l pi pj
    unfold hoareLoop
    dsimp only
    split
    · exact List.Perm.refl l
    · exact (ih _ _ _).trans (lswap_perm l _ _)

theorem partitionStep_perm (l : List ScoredRow) : ((partitionStep l).1).Perm l := by
  unfold partitionStep
  dsimp only
  refine (lswap_perm _ _ _).trans ?_
  refine (hoareLoop_perm _ _ _ _ _).trans ?_
  refine (lswap_perm _ _ _).trans ?_
  exact ((condSwap_perm _ _ _).trans ((condSwap_perm _ _ _).trans (condSwap_perm _ _ _)))

theorem orderedInsertAsc_perm (a : ScoredRow) (l : List ScoredRow) :
    (orderedInsertAsc a l).Perm (a :: l) := by
  induction l with
  | nil => exact List.Perm.refl _
  | cons b l ih =>
    show (if keyD a ≤ keyD b then a :: b :: l else b :: orderedInsertAsc a l).Perm _
    by_cases hab : keyD a ≤ keyD b
    · rw [if_pos hab]
    · rw [if_neg hab]
      exact (ih.cons b).trans (List.Perm.swap a b l)

theorem insertionSortAsc_perm (l : List ScoredRow) : (insertionSortAsc l).Perm l := by
  induction l with
  | nil => exact List.Perm.refl _
  | cons a l ih => exact (orderedInsertAsc_perm a (insertionSortAsc l)).trans (ih.cons a)

theorem npAquicksortFuel_perm :
    ∀ (fuel : Nat) (l : List ScoredRow), (npAquicksortFuel fuel l).Perm l := by
  intro fuel
  induction fuel with
  | zero => intro l; exact List.Perm.refl l
  | succ fuel ih =>
    intro l
    unfold npAquicksortFuel
    dsimp only
    split
    · exact insertionSortAsc_perm l
    · have hsplit : ((partitionStep l).1.take (partitionStep l).2
          ++ ((partitionStep l).1.drop (partitionStep l).2).take 1)
          ++ (partitionStep l).1.drop ((partitionStep l).2 + 1)
          = (partitionStep l).1 := by
        have h1 : (partitionStep l).1.drop ((partitionStep l).2 + 1)
            = ((partitionStep l).1.drop (partitionStep l).2).drop 1 :=
          (List.drop_drop 1 (partitionStep l).2 (partitionStep l).1).symm
        rw [List.append_assoc, h1, List.take_append_drop, List.take_append_drop]
      refine List.Perm.trans ?_ (partitionStep_perm l)
      refine List.Perm.trans
        (List.Perm.append (List.Perm.append (ih _) (List.Perm.refl _)) (ih _)) ?_
      rw [hsplit]

theorem npArgsortAsc_perm (l : List ScoredRow) : (npArgsortAsc l).Perm l :=
  npAquicksortFuel_perm l.length l

theorem npArgsortAsc_of_length_le (l : List ScoredRow) (h : l.length ≤ 16) :
    npArgsortAsc l = insertionSortAsc l := by
  cases l with
  | nil => rfl
  | cons a t =>
    show npAquicksortFuel (a :: t).length (a :: t) = _
    rw [List.length_cons]
    unfold npAquicksortFuel
    rw [if_pos (by simpa using h)]

theorem sortedBlock_perm (A : List ScoredRow) :
    ((npArgsortAsc A.reverse).reverse).Perm A :=
  (List.reverse_perm _).trans ((npArgsortAsc_perm _).trans (List.reverse_perm A))

theorem isNone_filter_eq (xs : List ScoredRow) :
    xs.filter (fun r => r.score.isNone)
      = xs.filter (fun r => !(fun r : ScoredRow => r.score.isSome) r) := by
  refine List.filter_congr ?_
  intro x _
  show x.score.isNone = !x.score.isSome
  cases x.score <;> rfl

theorem sortValuesScoreDesc_perm (xs : List ScoredRow) :
    (sortValuesScoreDesc xs).Perm xs := by
  unfold sortValuesScoreDesc
  refine ((sortedBlock_perm _).append_right _).trans ?_
  rw [isNone_filter_eq]
  exact List.filter_append_perm _ xs

theorem mem_orderedInsertAsc {x a : ScoredRow} {l : List ScoredRow} :
    x ∈ orderedInsertAsc a l ↔ x = a ∨ x ∈ l := by
  rw [(orderedInsertAsc_perm a l).mem_iff, List.mem_cons]

theorem pairwise_orderedInsertAsc {a : ScoredRow} {l : List ScoredRow}
    (hl : l.Pairwise (fun x y => keyD x ≤ keyD y)) :
    (orderedInsertAsc a l).Pairwise (fun x y => keyD x ≤ keyD y) := by
  induction l with
  | nil => simp [orderedInsertAsc]
  | cons b l ih =>
    rcases List.pairwise_cons.mp hl with ⟨hb, hl'⟩
    show (if keyD a ≤ keyD b then a :: b :: l else b :: orderedInsertAsc a l).Pairwise _
    by_cases hab : keyD a ≤ keyD b
    · rw [if_pos hab]
      refine List.pairwise_cons.mpr ⟨?_, hl⟩
      intro y hy
      rcases List.mem_cons.mp hy with rfl | hy
      · exact hab
      · exact le_trans hab (hb y hy)
    · rw [if_neg hab]
      refine List.pairwise_cons.mpr ⟨?_, ih hl'⟩
      intro y hy
      rcases mem_orderedInsertAsc.mp hy with rfl | hy
      · exact le_of_lt (lt_of_not_le hab)
      · exact hb y hy

theorem pairwise_insertionSortAsc (l : List ScoredRow) :
    (insertionSortAsc l).Pairwise (fun x y => keyD x ≤ keyD y) := by
  induction l with
  | nil => simp [insertionSortAsc]
  | cons a l ih => exact pairwise_orderedInsertAsc ih

/-! ### Stability of the insertion-sort phase: filtering by one score class
reproduces the input rows of that class in their original order. -/

theorem filter_orderedInsertAsc (s : Int) (a : ScoredRow) (l : List ScoredRow) :
    (orderedInsertAsc a l).filter (fun r => decide (keyD r = s))
      = if keyD a = s then a :: l.filter (fun r => decide (keyD r = s))
        else l.filter (fun r => decide (keyD r = s)) := by
  induction l with
  | nil => by_cases h : keyD a = s <;> simp [orderedInsertAsc, h]
  | cons b l ih =>
    show (if keyD a ≤ keyD b then a :: b :: l else b :: orderedInsertAsc a l).filter _ = _
    by_cases hab : keyD a ≤ keyD b
    · rw [if_pos hab]
      by_cases h : keyD a = s <;> by_cases hb : keyD b = s <;>
        simp [List.filter_cons, h, hb]
    · rw [if_neg hab]
      by_cases h : keyD a = s
      · have hb : ¬ keyD b = s := fun hbs => hab (le_of_eq (h.trans hbs.symm))
        simp [List.filter_cons, hb, ih, h]
      · by_cases hb : keyD b = s <;> simp [List.filter_cons, hb, ih, h]

theorem filter_insertionSortAsc (s : Int) (l : List ScoredRow) :
    (insertionSortAsc l).filter (fun r => decide (keyD r = s))
      = l.filter (fun r => decide (keyD r = s)) := by
  induction l with
  | nil => rfl
  | cons a l ih =>
    show (orderedInsertAsc a (insertionSortAsc l)).filter _ = _
    rw [filter_orderedInsertAsc]
    by_cases h : keyD a = s <;> simp [List.filter_cons, h, ih]

/-! ### Score characterization -/

theorem scoreMap_eq_none_iff (wb : String) :
    scoreMap wb = none ↔ wb ∉ (["High", "Medium", "Low"] : List String) := by
  unfold scoreMap
  by_cases h1 : wb = "High" <;> by_cases h2 : wb = "Medium" <;> by_cases h3 : wb = "Low" <;>
    simp [h1, h2, h3]

theorem scoreOf_eq_none_iff (h : HCP) :
    scoreOf h = none ↔ h.writing_behavior ∉ (["High", "Medium", "Low"] : List String) := by
  rw [← scoreMap_eq_none_iff]
  unfold scoreOf
  cases scoreMap h.writing_behavior <;> simp

/-! ### Membership facts about the ranked output -/

theorem mem_rank_output_score {df : List HCP} {r : RankedRow}
    (h : r ∈ (rank_hcps df).2) : r.score = scoreOf r.hcp := by
  have h1 : ScoredRow.mk r.hcp r.score ∈ sortValuesScoreDesc (addScoreColumn df) :=
    toScored_mem_of_mem_rankFrom h
  have h2 : ScoredRow.mk r.hcp r.score ∈ addScoreColumn df :=
    (sortValuesScoreDesc_perm _).mem_iff.mp h1
  rcases List.mem_map.mp h2 with ⟨x, _, hx⟩
  have : scoreOf x = r.score := congrArg ScoredRow.score hx
  have hh : x = r.hcp := congrArg ScoredRow.hcp hx
  rw [← this, hh]

theorem exists_rank_output_of_mem {df : List HCP} {h : HCP} (hmem : h ∈ df) :
    ∃ r ∈ (rank_hcps df).2, r.hcp = h ∧ r.score = scoreOf h := by
  have h1 : ScoredRow.mk h (scoreOf h) ∈ addScoreColumn df :=
    List.mem_map.mpr ⟨h, hmem, rfl⟩
  have h2 : ScoredRow.mk h (scoreOf h) ∈ sortValuesScoreDesc (addScoreColumn df) :=
    (sortValuesScoreDesc_perm _).mem_iff.mpr h1
  rcases exists_mem_rankFrom_of_mem (k := 1) h2 with ⟨r, hr, hh, hs⟩
  exact ⟨r, hr, hh, hs⟩

theorem rank_output_length (df : List HCP) :
    (rank_hcps df).2.length = df.length := by
  show (rankFrom 1 (sortValuesScoreDesc (addScoreColumn df))).length = df.length
  rw [rankFrom_length, (sortValuesScoreDesc_perm _).length_eq]
  simp [addScoreColumn]

/-! ### The duplicate-bin-edge guard -/

theorem dedup_length_lt_iff {α : Type} [DecidableEq α] (l : List α) :
    l.dedup.length < l.length ↔ ¬ l.Nodup := by
  constructor
  · intro hlt hnd
    rw [List.dedup_eq_self.mpr hnd] at hlt
    exact lt_irrefl _ hlt
  · intro hnd
    rcases lt_or_eq_of_le (List.Sublist.length_le (List.dedup_sublist l)) with hlt | heq
    · exact hlt
    · exact absurd (List.dedup_eq_self.mp ((List.dedup_sublist l).eq_of_length heq)) hnd

theorem segment_bins_nodup_iff (n : Nat) :
    ([0, ((n / 5 : Nat) : Int), ((n / 2 : Nat) : Int), (n : Int)] : List Int).Nodup ↔ 5 ≤ n := by
  constructor
  · intro hnd
    by_contra hn
    push_neg at hn
    interval_cases n <;> simp_all
  · intro h5
    simp only [List.nodup_cons, List.mem_cons, List.mem_singleton, List.not_mem_nil,
      List.nodup_nil, and_true, not_or, not_false_iff]
    omega

/-! ### Evaluating `pd.cut` on the segment bins -/

theorem cutValue_eval (n r : Nat) (h1 : 1 ≤ r) (hn : r ≤ n) :
    cutValue [0, ((n / 5 : Nat) : Int), ((n / 2 : Nat) : Int), (n : Int)]
        ["Top 20%", "Middle 30%", "Bottom 50%"] ((r : Nat) : Int)
      = some (if r ≤ n / 5 then "Top 20%"
          else if r ≤ n / 2 then "Middle 30%" else "Bottom 50%") := by
  have hne : ((some (0 : Int) : Option Int) = some ((r : Nat) : Int)) ↔ False := by
    constructor
    · intro h
      have := Option.some.inj h
      omega
    · exact False.elim
  have c0 : (0 : Int) < ((r : Nat) : Int) := by omega
  by_cases hA : r ≤ n / 5
  · have c1 : ¬ ((n : Int) / 5 < ((r : Nat) : Int)) := by omega
    have c2 : ¬ ((n : Int) / 2 < ((r : Nat) : Int)) := by omega
    have c3 : ¬ ((n : Int) < ((r : Nat) : Int)) := by omega
    simp [cutValue, searchsortedLeft, List.filter_cons, hne, c0, c1, c2, c3, hA]
  · by_cases hB : r ≤ n / 2
    · have c1 : ((n : Int) / 5 < ((r : Nat) : Int)) := by omega
      have c2 : ¬ ((n : Int) / 2 < ((r : Nat) : Int)) := by omega
      have c3 : ¬ ((n : Int) < ((r : Nat) : Int)) := by omega
      simp [cutValue, searchsortedLeft, List.filter_cons, hne, c0, c1, c2, c3, hA, hB]
    · have c1 : ((n : Int) / 5 < ((r : Nat) : Int)) := by omega
      have c2 : ((n : Int) / 2 < ((r : Nat) : Int)) := by omega
      have c3 : ¬ ((n : Int) < ((r : Nat) : Int)) := by omega
      simp [cutValue, searchsortedLeft, List.filter_cons, hne, c0, c1, c2, c3, hA, hB]

theorem segment_hcps_eq_error_of_le_four (df : List RankedRow) (h4 : df.length ≤ 4) :
    segment_hcps df = Except.error binEdgesError := by
  have hnd : ¬ ([0, ((df.length / 5 : Nat) : Int), ((df.length / 2 : Nat) : Int),
      (df.length : Int)] : List Int).Nodup := by
    intro hnd
    have := (segment_bins_nodup_iff df.length).mp hnd
    omega
  simp only [segment_hcps]
  rw [if_pos ((dedup_length_lt_iff _).mpr hnd)]

theorem segment_hcps_eq_ok_of_five_le (df : List RankedRow) (h5 : 5 ≤ df.length) :
    segment_hcps df = Except.ok (df.map fun r =>
      { hcp := r.hcp, score := r.score, priority_rank := r.priority_rank,
        segment := cutValue
          [0, ((df.length / 5 : Nat) : Int), ((df.length / 2 : Nat) : Int), (df.length : Int)]
          ["Top 20%", "Middle 30%", "Bottom 50%"] ((r.priority_rank : Nat) : Int) }) := by
  have hnd := (segment_bins_nodup_iff df.length).mpr h5
  have hno : ¬ ([0, ((df.length / 5 : Nat) : Int), ((df.length / 2 : Nat) : Int),
      (df.length : Int)] : List Int).dedup.length <
        ([0, ((df.length / 5 : Nat) : Int), ((df.length / 2 : Nat) : Int),
          (df.length : Int)] : List Int).length := by
    rw [List.dedup_eq_self.mpr hnd]
    exact lt_irrefl _
  simp only [segment_hcps]
  rw [if_neg hno]

/-! ### The stability chain from ranked output back to the input -/

theorem rankFrom_filter_hcp (k : Nat) (xs : List ScoredRow) (p : Option Int → Bool) :
    ((rankFrom k xs).filter (fun r => p r.score)).map (fun r => r.hcp)
      = (xs.filter (fun r => p r.score)).map (fun r => r.hcp) := by
  induction xs generalizing k with
  | nil => rfl
  | cons x xs ih =>
    cases hp : p x.score <;> simp [rankFrom, List.filter_cons, hp, ih]

theorem filter_sortValues_score_class (xs : List ScoredRow) (s : Int)
    (hsmall : (xs.filter fun r => r.score.isSome).length ≤ 16) :
    (sortValuesScoreDesc xs).filter (fun r => decide (r.score = some s))
      = xs.filter (fun r => decide (r.score = some s)) := by
  unfold sortValuesScoreDesc
  rw [List.filter_append]
  have hrev : ((xs.filter fun r => r.score.isSome).reverse).length ≤ 16 := by
    rw [List.length_reverse]
    exact hsmall
  rw [npArgsortAsc_of_length_le _ hrev]
  have hnone : (xs.filter (fun r => r.score.isNone)).filter
      (fun r => decide (r.score = some s)) = [] := by
    rw [List.filter_eq_nil_iff]
    intro a ha
    rcases List.mem_filter.mp ha with ⟨_, hisn⟩
    rw [Option.isNone_iff_eq_none] at hisn
    simp [hisn]
  have hconv : (insertionSortAsc ((xs.filter fun r => r.score.isSome).reverse)).filter
        (fun r => decide (r.score = some s))
      = (insertionSortAsc ((xs.filter fun r => r.score.isSome).reverse)).filter
        (fun r => decide (keyD r = s)) := by
    refine List.filter_congr ?_
    intro x hx
    have hx' : x ∈ xs.filter (fun r => r.score.isSome) :=
      (List.reverse_perm _).mem_iff.mp ((insertionSortAsc_perm _).mem_iff.mp hx)
    rcases List.mem_filter.mp hx' with ⟨_, hsome⟩
    rcases Option.isSome_iff_exists.mp hsome with ⟨v, hv⟩
    simp [keyD, hv]
  have hconv2 : ((xs.filter fun r => r.score.isSome).reverse).filter
        (fun r => decide (keyD r = s))
      = ((xs.filter fun r => r.score.isSome).reverse).filter
        (fun r => decide (r.score = some s)) := by
    refine List.filter_congr ?_
    intro x hx
    have hx' : x ∈ xs.filter (fun r => r.score.isSome) :=
      (List.reverse_perm _).mem_iff.mp hx
    rcases List.mem_filter.mp hx' with ⟨_, hsome⟩
    rcases Option.isSome_iff_exists.mp hsome with ⟨v, hv⟩
    simp [keyD, hv]
  rw [List.filter_reverse, hconv, filter_insertionSortAsc, hconv2, List.filter_reverse,
    List.reverse_reverse, hnone, List.append_nil, List.filter_filter]
  refine List.filter_congr ?_
  intro x _
  cases hx : x.score <;> simp [hx]

theorem rank_filter_score_class (df : List HCP) (s : Int) (hsmall : df.length ≤ 16) :
    ((rank_hcps df).2.filter (fun r => decide (r.score = some s))).map (fun r => r.hcp)
      = df.filter (fun h => decide (scoreOf h = some s)) := by
  have hblock : ((addScoreColumn df).filter fun r => r.score.isSome).length ≤ 16 := by
    calc ((addScoreColumn df).filter fun r => r.score.isSome).length
        ≤ (addScoreColumn df).length := List.length_filter_le _ _
      _ = df.length := by simp [addScoreColumn]
      _ ≤ 16 := hsmall
  have step1 :
      ((rankFrom 1 (sortValuesScoreDesc (addScoreColumn df))).filter
          (fun r => decide (r.score = some s))).map (fun r => r.hcp)
        = ((sortValuesScoreDesc (addScoreColumn df)).filter
          (fun r => decide (r.score = some s))).map (fun r => r.hcp) :=
    rankFrom_filter_hcp 1 _ (fun o => decide (o = some s))
  show ((rankFrom 1 (sortValuesScoreDesc (addScoreColumn df))).filter _).map _ = _
  rw [step1, filter_sortValues_score_class _ _ hblock]
  unfold addScoreColumn
  rw [List.filter_map, List.map_map]
  have hid : ((fun r : ScoredRow => r.hcp) ∘ fun h : HCP => ScoredRow.mk h (scoreOf h))
      = id := rfl
  rw [hid, List.map_id]
  rfl

/-! ### Splitting the ranked output into defined and missing scores -/

theorem rankFrom_append (k : Nat) (xs ys : List ScoredRow) :
    rankFrom k (xs ++ ys) = rankFrom k xs ++ rankFrom (k + xs.length) ys := by
  induction xs generalizing k with
  | nil => simp [rankFrom]
  | cons x xs ih =>
    have harith : k + (xs.length + 1) = k + 1 + xs.length := by omega
    simp [rankFrom, ih, harith]

theorem mem_rankFrom_score {k : Nat} {xs : List ScoredRow} {r : RankedRow}
    (h : r ∈ rankFrom k xs) : ∃ x ∈ xs, r.score = x.score := by
  have := toScored_mem_of_mem_rankFrom h
  exact ⟨ScoredRow.mk r.hcp r.score, this, rfl⟩

/-- Descending order on optional scores as produced by the sort: any present
score precedes a missing one, and two present scores are ordered by `≥`. -/
def scoreGEOpt : Option Int → Option Int → Prop
  | _, none => True
  | none, some _ => False
  | some a, some b => b ≤ a

theorem scoreGEOpt_of_none_right (x : Option Int) : scoreGEOpt x none := by
  cases x <;> simp [scoreGEOpt]

theorem rankFrom_pairwise (k : Nat) (xs : List ScoredRow)
    (R : Option Int → Option Int → Prop)
    (h : xs.Pairwise (fun a b => R a.score b.score)) :
    (rankFrom k xs).Pairwise (fun a b => R a.score b.score) := by
  induction xs generalizing k with
  | nil => simp [rankFrom]
  | cons x xs ih =>
    rcases List.pairwise_cons.mp h with ⟨hx, h'⟩
    refine List.pairwise_cons.mpr ⟨?_, ih (k + 1) h'⟩
    intro y hy
    rcases mem_rankFrom_score hy with ⟨x', hx', hs⟩
    show R x.score y.score
    rw [hs]
    exact hx x' hx'

theorem pairwise_sortValues_of_small (xs : List ScoredRow)
    (hsmall : (xs.filter fun r => r.score.isSome).length ≤ 16) :
    (sortValuesScoreDesc xs).Pairwise (fun a b => scoreGEOpt a.score b.score) := by
  unfold sortValuesScoreDesc
  rw [List.pairwise_append]
  refine ⟨?_, ?_, ?_⟩
  · have hrev : ((xs.filter fun r => r.score.isSome).reverse).length ≤ 16 := by
      rw [List.length_reverse]
      exact hsmall
    rw [npArgsortAsc_of_length_le _ hrev, List.pairwise_reverse]
    refine List.Pairwise.imp_of_mem ?_ (pairwise_insertionSortAsc _)
    intro a b ha hb hk
    have ha' := List.mem_filter.mp
      ((List.reverse_perm _).mem_iff.mp ((insertionSortAsc_perm _).mem_iff.mp ha))
    have hb' := List.mem_filter.mp
      ((List.reverse_perm _).mem_iff.mp ((insertionSortAsc_perm _).mem_iff.mp hb))
    rcases Option.isSome_iff_exists.mp ha'.2 with ⟨va, hva⟩
    rcases Option.isSome_iff_exists.mp hb'.2 with ⟨vb, hvb⟩
    show scoreGEOpt b.score a.score
    rw [hva, hvb]
    simp only [scoreGEOpt]
    simpa [keyD, hva, hvb] using hk
  · refine List.pairwise_of_forall_mem_list ?_
    intro a _ b hb
    rcases List.mem_filter.mp hb with ⟨_, hn⟩
    rw [Option.isNone_iff_eq_none] at hn
    rw [hn]
    exact scoreGEOpt_of_none_right _
  · intro a _ b hb
    rcases List.mem_filter.mp hb with ⟨_, hn⟩
    rw [Option.isNone_iff_eq_none] at hn
    rw [hn]
    exact scoreGEOpt_of_none_right _

theorem pairwise_rank_output_of_small (df : List HCP) (hsmall : df.length ≤ 16) :
    (rank_hcps df).2.Pairwise (fun a b => scoreGEOpt a.score b.score) := by
  have hblock : ((addScoreColumn df).filter fun r => r.score.isSome).length ≤ 16 := by
    calc ((addScoreColumn df).filter fun r => r.score.isSome).length
        ≤ (addScoreColumn df).length := List.length_filter_le _ _
      _ = df.length := by simp [addScoreColumn]
      _ ≤ 16 := hsmall
  exact rankFrom_pairwise 1 _ scoreGEOpt (pairwise_sortValues_of_small _ hblock)

theorem rank_output_split (df : List HCP) :
    ∃ xs ys, (rank_hcps df).2 = xs ++ ys
      ∧ (∀ r ∈ xs, r.score.isSome = true) ∧ (∀ r ∈ ys, r.score = none) := by
  refine ⟨rankFrom 1
      ((npArgsortAsc (((addScoreColumn df).filter fun r => r.score.isSome).reverse)).reverse),
    rankFrom (1 +
      ((npArgsortAsc (((addScoreColumn df).filter fun r => r.score.isSome).reverse)).reverse).length)
      ((addScoreColumn df).filter fun r => r.score.isNone), ?_, ?_, ?_⟩
  · show rankFrom 1 (sortValuesScoreDesc (addScoreColumn df)) = _
    unfold sortValuesScoreDesc
    rw [rankFrom_append]
  · intro r hr
    rcases mem_rankFrom_score hr with ⟨x, hx, hs⟩
    have hxs := (List.mem_filter.mp ((sortedBlock_perm _).mem_iff.mp hx)).2
    rw [hs]
    exact hxs
  · intro r hr
    rcases mem_rankFrom_score hr with ⟨x, hx, hs⟩
    have hxn := (List.mem_filter.mp hx).2
    rw [Option.isNone_iff_eq_none] at hxn
    rw [hs]
    exact hxn

theorem rank_output_hcps_perm (df : List HCP) :
    ((rank_hcps df).2.map (fun r => r.hcp)).Perm df := by
  show ((rankFrom 1 (sortValuesScoreDesc (addScoreColumn df))).map _).Perm df
  rw [rankFrom_map_hcp]
  have hp : ((sortValuesScoreDesc (addScoreColumn df)).map (fun r : ScoredRow => r.hcp)).Perm
      ((addScoreColumn df).map (fun r : ScoredRow => r.hcp)) :=
    (sortValuesScoreDesc_perm _).map _
  have heq : (addScoreColumn df).map (fun r : ScoredRow => r.hcp) = df := by
    unfold addScoreColumn
    rw [List.map_map]
    exact List.map_id df
  rw [heq] at hp
  exact hp

theorem rank_output_map_rank (df : List HCP) :
    (rank_hcps df).2.map (fun r => r.priority_rank) = List.range' 1 df.length := by
  show (rankFrom 1 _).map _ = _
  rw [rankFrom_map_rank, (sortValuesScoreDesc_perm _).length_eq]
  simp [addScoreColumn]

/-! ### Concrete fixtures for witnesses and counterexamples -/

/-- A concrete record with `writing_behavior = "High"`. -/
def exA : HCP :=
  { npi_id := "1000000000", speciality := "Family Medicine", rx_value := 10,
    state_code := "CA", writing_behavior := "High" }

/-- A concrete record with `writing_behavior = "Medium"`. -/
def exB : HCP :=
  { npi_id := "1000000001", speciality := "Dermatology", rx_value := 5,
    state_code := "NY", writing_behavior := "Medium" }

/-- A concrete record with `writing_behavior = "Low"`. -/
def exC : HCP :=
  { npi_id := "1000000002", speciality := "Oncology", rx_value := 2,
    state_code := "TX", writing_behavior := "Low" }

/-- A concrete record with an unmapped `writing_behavior`. -/
def exD : HCP :=
  { npi_id := "1000000003", speciality := "Surgery", rx_value := 7,
    state_code := "FL", writing_behavior := "Unknown" }

/-- A concrete four-record input table. -/
def exDfH : List HCP := [exA, exB, exC, exD]

/-- A concrete ranked single-row table (N = 1, rank 1). -/
def exDf1 : List RankedRow :=
  [{ hcp := exA, score := some 30, priority_rank := 1 }]

/-- A concrete ranked five-row table with ranks 1..5. -/
def exDf5 : List RankedRow :=
  [{ hcp := exA, score := some 30, priority_rank := 1 },
   { hcp := exB, score := some 10, priority_rank := 2 },
   { hcp := exC, score := some 2, priority_rank := 3 },
   { hcp := exA, score := some 1, priority_rank := 4 },
   { hcp := exB, score := some 1, priority_rank := 5 }]

/-! ### The claims -/

/-- C2 (amended): on the empty table (`N = 0`) the Ranker returns an empty
table and an empty caller state without error, but the Segmenter does not
return an empty table: `pd.cut` raises
`ValueError("Bin edges must be unique")`, because the bin edges
`[0, int(0), int(0), 0] = [0, 0, 0, 0]` are all duplicated. -/
theorem empty_input_behavior :
    rank_hcps ([] : List HCP) = (([] : List ScoredRow), ([] : List RankedRow))
    ∧ segment_hcps ([] : List RankedRow) = Except.error binEdgesError := by
  constructor
  · rfl
  · rfl

/-- C2 counterexample: the claim asserts that `segment_hcps` returns the
empty table without error on empty input; instead it raises, so the result
is not `Except.ok []`. -/
theorem segment_empty_not_ok :
    segment_hcps ([] : List RankedRow) ≠ Except.ok ([] : List SegRow) := by
  intro hcontra
  have herr : segment_hcps ([] : List RankedRow) = Except.error binEdgesError := rfl
  rw [herr] at hcontra
  exact Except.noConfusion hcontra

/-- C3: for every non-empty input table the ranked output carries
`priority_rank` values that are exactly `1..N` in output order (hence a
contiguous permutation with no gaps or duplicates), the underlying records
are a permutation of the input, and every record exits with its computed
`score` cell. -/
theorem rank_permutation (df : List HCP) (_hne : df ≠ []) :
    (rank_hcps df).2.map (fun r => r.priority_rank) = List.range' 1 df.length
    ∧ ((rank_hcps df).2.map (fun r => r.hcp)).Perm df
    ∧ ∀ r ∈ (rank_hcps df).2, r.score = scoreOf r.hcp := by
  refine ⟨rank_output_map_rank df, rank_output_hcps_perm df, ?_⟩
  intro r hr
  exact mem_rank_output_score hr

/-- C3 witness: the concrete four-record table is non-empty and its ranked
output carries ranks 1..4. -/
theorem rank_permutation_witness :
    exDfH ≠ []
    ∧ (rank_hcps exDfH).2.map (fun r => r.priority_rank) = List.range' 1 exDfH.length :=
  ⟨by decide, (rank_permutation exDfH (by decide)).1⟩

/-- C4: every ranked-output row whose `writing_behavior` is one of High,
Medium, Low carries `score = rx_value * weight` with weights 3, 2, 1. -/
theorem score_weight_formula (df : List HCP) (r : RankedRow)
    (hmem : r ∈ (rank_hcps df).2)
    (hwb : r.hcp.writing_behavior ∈ (["High", "Medium", "Low"] : List String)) :
    r.score = some (r.hcp.rx_value *
      (if r.hcp.writing_behavior = "High" then 3
       else if r.hcp.writing_behavior = "Medium" then 2 else 1)) := by
  have hs := mem_rank_output_score hmem
  simp only [List.mem_cons, List.mem_singleton, List.not_mem_nil, or_false] at hwb
  rcases hwb with h | h | h <;> rw [hs] <;> simp [scoreOf, scoreMap, h]

/-- C4 witness: in the ranked output of the concrete table, the High-writer
row has score `rx_value * 3`. -/
theorem score_weight_witness :
    ({ hcp := exA, score := some 30, priority_rank := 1 } : RankedRow) ∈ (rank_hcps exDfH).2
    ∧ ({ hcp := exA, score := some 30, priority_rank := 1 } : RankedRow).score
        = some (exA.rx_value *
          (if exA.writing_behavior = "High" then 3
           else if exA.writing_behavior = "Medium" then 2 else 1)) :=
  ⟨by decide,
   score_weight_formula exDfH { hcp := exA, score := some 30, priority_rank := 1 }
     (by decide) (by decide)⟩

/-- C5: the Channel Classifier emits exactly one row per input record, keyed
by `npi_id`, whose label is "In-person" exactly when `writing_behavior` is
"High" or the speciality is Cardiology or Oncology, and "Email" otherwise;
the row at each position depends only on that record's
`(speciality, writing_behavior)` pair (and its id), not on score, rank,
segment, or the rest of the table. -/
theorem channel_affinity_pointwise (df : List SegRow) :
    (channel_affinity df).length = df.length
    ∧ (∀ i : Nat, (channel_affinity df).get? i = (df.get? i).map (fun r =>
        (r.hcp.npi_id,
         if r.hcp.writing_behavior = "High" ∨ r.hcp.speciality = "Cardiology"
            ∨ r.hcp.speciality = "Oncology"
         then "In-person" else "Email"))) := by
  constructor
  · simp [channel_affinity]
  · intro i
    simp [channel_affinity, List.get?_map]

/-- A record with a fixed score used by the tied-table fixture. -/
def exTied (i : Nat) : HCP :=
  { npi_id := toString i, speciality := "Surgery", rx_value := 50,
    state_code := "CA", writing_behavior := "Low" }

/-- Seventeen records with identical scores: the smallest table on which
NumPy's quicksort leaves its insertion-sort regime. -/
def exDf17 : List HCP := (List.range 17).map exTied

/-- C6 (amended): `sort_values` runs NumPy's default quicksort.  A non-`NaN`
block of at most 16 rows is handled by its stable insertion-sort phase, and
together with pandas' pre/post reversal the descending sort is then stable:
for tables of at most 16 rows the ranked output is pairwise-descending on
scores (missing scores last) and, for every score value `s`, the rows
carrying score `s` appear in exactly their input order.  For larger blocks
the quicksort partition pass reorders tied rows, so the claimed
unconditional tie stability fails (see the 17-row counterexample). -/
theorem rank_sort_desc_stable_small (df : List HCP) (s : Int) (hsmall : df.length ≤ 16) :
    (rank_hcps df).2.Pairwise (fun a b => scoreGEOpt a.score b.score)
    ∧ ((rank_hcps df).2.filter (fun r => decide (r.score = some s))).map (fun r => r.hcp)
        = df.filter (fun h => decide (scoreOf h = some s)) :=
  ⟨pairwise_rank_output_of_small df hsmall, rank_filter_score_class df s hsmall⟩

/-- C6 counterexample: all seventeen rows of `exDf17` tie on score 50, yet
the ranked output does not keep them in input order — the quicksort
partition (median-of-3 swaps, pivot parked at position 15, the crossing
exchange scans) scrambles the ties, e.g. the row from input position 9 is
ranked second.  The original claim asserts the relative input order of
equal-score records is always preserved; here it is not. -/
theorem rank_sort_ties_scrambled :
    exDf17.map scoreOf = List.replicate 17 (some 50)
    ∧ (rank_hcps exDf17).2.map (fun r => r.hcp.npi_id)
        = ["0", "9", "15", "14", "13", "12", "11", "10", "8",
           "1", "7", "6", "5", "4", "3", "2", "16"]
    ∧ (rank_hcps exDf17).2.map (fun r => r.hcp.npi_id)
        ≠ exDf17.map (fun h => h.npi_id) := by
  refine ⟨by decide, by decide, ?_⟩
  decide

/-- C7: a record whose `writing_behavior` is outside High/Medium/Low still
flows through the Ranker without any error: it appears in the output with a
missing (`NaN`) score, and the output has one row per input row. -/
theorem invalid_behavior_score_none (df : List HCP) (h : HCP) (hmem : h ∈ df)
    (hwb : h.writing_behavior ∉ (["High", "Medium", "Low"] : List String)) :
    (∃ r ∈ (rank_hcps df).2, r.hcp = h ∧ r.score = none)
    ∧ (rank_hcps df).2.length = df.length := by
  refine ⟨?_, rank_output_length df⟩
  have hnone : scoreOf h = none := (scoreOf_eq_none_iff h).mpr hwb
  rcases exists_rank_output_of_mem hmem with ⟨r, hr, hh, hs⟩
  exact ⟨r, hr, hh, hs.trans hnone⟩

/-- C7 witness: the concrete record with behavior "Unknown" appears in the
ranked output of the concrete table with a missing score. -/
theorem invalid_behavior_witness :
    exD ∈ exDfH
    ∧ exD.writing_behavior ∉ (["High", "Medium", "Low"] : List String)
    ∧ ∃ r ∈ (rank_hcps exDfH).2, r.hcp = exD ∧ r.score = none :=
  ⟨by decide, by decide,
   (invalid_behavior_score_none exDfH exD (by decide) (by decide)).1⟩

/-- C8: synthetic generation is deterministic: it re-seeds the global
generators with the fixed seed 42 on entry, so a second call (starting from
whatever generator state the first call left) returns a cell-for-cell
identical table, and more generally the table is independent of the
incoming generator state. -/
theorem synthea_deterministic (g g2 : RNG) (n : Nat) :
    (synthea_simulator ((synthea_simulator g n).2) n).1 = (synthea_simulator g n).1
    ∧ (synthea_simulator g n).1 = (synthea_simulator g2 n).1 := by
  constructor <;> rfl

/-- C9: `rank_hcps` mutates its argument in place: after the call the
caller's table object has the same records in the same order with the five
base columns unchanged, plus a computed `score` column; consequently the
table `app.py` goes on to display and export as "Current HCP Data" (bound
to `data` before `rank_hcps(data)` is called) carries the derived `score`
column. -/
theorem rank_mutates_argument (df : List HCP) :
    (rank_hcps df).1.map (fun r => r.hcp) = df
    ∧ (rank_hcps df).1 = df.map (fun h => { hcp := h, score := scoreOf h })
    ∧ ∀ g n, (rank_hcps (generate_hcp_data g n).1).1
        = (generate_hcp_data g n).1.map (fun h => { hcp := h, score := scoreOf h }) := by
  refine ⟨?_, rfl, fun g n => rfl⟩
  show (addScoreColumn df).map (fun r => r.hcp) = df
  unfold addScoreColumn
  rw [List.map_map]
  exact List.map_id df

/-- C10: every record with a missing score (exactly those whose
`writing_behavior` is outside High/Medium/Low) still receives a
`priority_rank` (ranks are `1..N` positionally over the whole output), and
all missing-score rows are placed after every defined-score row. -/
theorem nan_scores_ranked_last (df : List HCP) :
    (∃ xs ys, (rank_hcps df).2 = xs ++ ys
      ∧ (∀ r ∈ xs, r.score.isSome = true) ∧ (∀ r ∈ ys, r.score = none))
    ∧ (rank_hcps df).2.map (fun r => r.priority_rank) = List.range' 1 df.length
    ∧ ∀ r ∈ (rank_hcps df).2,
        (r.score = none ↔ r.hcp.writing_behavior ∉ (["High", "Medium", "Low"] : List String)) := by
  refine ⟨rank_output_split df, rank_output_map_rank df, ?_⟩
  intro r hr
  rw [mem_rank_output_score hr]
  exact scoreOf_eq_none_iff r.hcp

/-- C1 (amended): the Segmenter's bins `[0, n/5, n/2, n]` are pairwise
distinct only for `n ≥ 5`.  In that regime `segment_hcps` succeeds and
assigns every rank `1..n` exactly one label — "Top 20%" exactly on ranks
`≤ n/5`, "Middle 30%" exactly on `n/5 < rank ≤ n/2`, "Bottom 50%" exactly
on `rank > n/2` — so the three labels partition the rank range, rank 1 is
always "Top 20%" and rank `n` is always "Bottom 50%".  For `1 ≤ n ≤ 4`
(in particular `n = 1`, the claim's degenerate case) the bin edges contain
duplicates and `pd.cut` raises `ValueError("Bin edges must be unique")`
instead of assigning "Top 20%" to rank 1. -/
theorem segment_partition_of_five_le (df : List RankedRow)
    (hranks : df.map (fun r => r.priority_rank) = List.range' 1 df.length) :
    (5 ≤ df.length →
      segment_hcps df = Except.ok (df.map fun r =>
        { hcp := r.hcp, score := r.score, priority_rank := r.priority_rank,
          segment := some (if r.priority_rank ≤ df.length / 5 then "Top 20%"
            else if r.priority_rank ≤ df.length / 2 then "Middle 30%"
            else "Bottom 50%") })
      ∧ ∀ out, segment_hcps df = Except.ok out →
          (∀ x ∈ out, x.priority_rank = 1 → x.segment = some "Top 20%")
          ∧ (∀ x ∈ out, x.priority_rank = df.length → x.segment = some "Bottom 50%"))
    ∧ (1 ≤ df.length → df.length ≤ 4 →
        segment_hcps df = Except.error binEdgesError) := by
  constructor
  · intro h5
    have hbound : ∀ r ∈ df, 1 ≤ r.priority_rank ∧ r.priority_rank ≤ df.length := by
      intro r hr
      have hmem : r.priority_rank ∈ List.range' 1 df.length := by
        rw [← hranks]
        exact List.mem_map_of_mem _ hr
      rcases List.mem_range'.mp hmem with ⟨i, hi, hieq⟩
      omega
    have hok : segment_hcps df = Except.ok (df.map fun r =>
        { hcp := r.hcp, score := r.score, priority_rank := r.priority_rank,
          segment := some (if r.priority_rank ≤ df.length / 5 then "Top 20%"
            else if r.priority_rank ≤ df.length / 2 then "Middle 30%"
            else "Bottom 50%") }) := by
      rw [segment_hcps_eq_ok_of_five_le df h5]
      congr 1
      refine List.map_congr_left ?_
      intro r hr
      rcases hbound r hr with ⟨hr1, hrn⟩
      rw [cutValue_eval df.length r.priority_rank hr1 hrn]
    refine ⟨hok, ?_⟩
    intro out hout
    rw [hok] at hout
    have hout' : out = df.map fun r =>
        { hcp := r.hcp, score := r.score, priority_rank := r.priority_rank,
          segment := some (if r.priority_rank ≤ df.length / 5 then "Top 20%"
            else if r.priority_rank ≤ df.length / 2 then "Middle 30%"
            else "Bottom 50%") } := (Except.ok.inj hout).symm
    subst hout'
    constructor
    · intro x hx hx1
      rcases List.mem_map.mp hx with ⟨r, _, hrx⟩
      subst hrx
      have hr1 : r.priority_rank = 1 := hx1
      show some (if r.priority_rank ≤ df.length / 5 then "Top 20%"
        else if r.priority_rank ≤ df.length / 2 then "Middle 30%"
        else "Bottom 50%") = some "Top 20%"
      rw [hr1, if_pos (by omega : 1 ≤ df.length / 5)]
    · intro x hx hxn
      rcases List.mem_map.mp hx with ⟨r, _, hrx⟩
      subst hrx
      have hrn : r.priority_rank = df.length := hxn
      show some (if r.priority_rank ≤ df.length / 5 then "Top 20%"
        else if r.priority_rank ≤ df.length / 2 then "Middle 30%"
        else "Bottom 50%") = some "Bottom 50%"
      rw [hrn, if_neg (by omega : ¬ df.length ≤ df.length / 5),
        if_neg (by omega : ¬ df.length ≤ df.length / 2)]
  · intro _ h4
    exact segment_hcps_eq_error_of_le_four df h4

/-- C1 witness: on the concrete five-row ranked table the Segmenter assigns
the partition labels, and on the concrete one-row ranked table it raises
the duplicate-bin-edge error. -/
theorem segment_partition_witness :
    segment_hcps exDf5 = Except.ok (exDf5.map fun r =>
      { hcp := r.hcp, score := r.score, priority_rank := r.priority_rank,
        segment := some (if r.priority_rank ≤ exDf5.length / 5 then "Top 20%"
          else if r.priority_rank ≤ exDf5.length / 2 then "Middle 30%"
          else "Bottom 50%") })
    ∧ segment_hcps exDf1 = Except.error binEdgesError :=
  ⟨((segment_partition_of_five_le exDf5 (by decide)).1 (by decide)).1,
   (segment_partition_of_five_le exDf1 (by decide)).2 (by decide) (by decide)⟩

/-- C1 counterexample: for `N = 1` the claim demands that rank 1 be
assigned "Top 20%"; instead `segment_hcps` raises the duplicate-bin-edge
`ValueError` (bins = `[0, 0, 0, 1]`), so no row is assigned any segment. -/
theorem segment_singleton_raises :
    segment_hcps exDf1 = Except.error binEdgesError
    ∧ segment_hcps exDf1 ≠ Except.ok (exDf1.map fun r =>
        { hcp := r.hcp, score := r.score, priority_rank := r.priority_rank,
          segment := some "Top 20%" }) := by
  constructor
  · rfl
  · intro hcontra
    have herr : segment_hcps exDf1 = Except.error binEdgesError := rfl
    rw [herr] at hcontra
    exact Except.noConfusion hcontra

/-- A concrete segmented table used to instantiate the classifier. -/
def exSegDf : List SegRow :=
  [{ hcp := exA, score := some 30, priority_rank := 1, segment := some "Top 20%" },
   { hcp := exB, score := some 10, priority_rank := 2, segment := some "Middle 30%" },
   { hcp := exC, score := some 2, priority_rank := 3, segment := some "Bottom 50%" },
   { hcp := exD, score := none, priority_rank := 4, segment := some "Bottom 50%" }]

/-- C5 witness: the classifier instantiated on the concrete segmented
table. -/
theorem channel_affinity_witness :
    (channel_affinity exSegDf).length = exSegDf.length :=
  (channel_affinity_pointwise exSegDf).1

/-- C6 witness: the concrete four-record table is small enough for the
insertion-sort regime, and its stability equation holds at score value
30. -/
theorem rank_sort_desc_stable_small_witness :
    exDfH.length ≤ 16
    ∧ ((rank_hcps exDfH).2.filter (fun r => decide (r.score = some 30))).map (fun r => r.hcp)
        = exDfH.filter (fun h => decide (scoreOf h = some 30)) :=
  ⟨by decide, (rank_sort_desc_stable_small exDfH 30 (by decide)).2⟩

/-- C8 witness: two chained invocations on a concrete state and count give
the same table. -/
theorem synthea_deterministic_witness :
    (synthea_simulator ((synthea_simulator { npState := 0, pyState := 0 } 3).2) 3).1
      = (synthea_simulator { npState := 0, pyState := 0 } 3).1 :=
  (synthea_deterministic { npState := 0, pyState := 0 } { npState := 1, pyState := 1 } 3).1

/-- C9 witness: the caller's concrete table keeps its records in place
after ranking. -/
theorem rank_mutates_argument_witness :
    (rank_hcps exDfH).1.map (fun r => r.hcp) = exDfH :=
  (rank_mutates_argument exDfH).1

/-- C10 witness: the ranked output of the concrete table (which contains a
missing-score record) carries ranks 1..4. -/
theorem nan_scores_ranked_last_witness :
    (rank_hcps exDfH).2.map (fun r => r.priority_rank) = List.range' 1 exDfH.length :=
  (nan_scores_ranked_last exDfH).2.1

/-- C2 witness: the amended empty-input behavior instantiated (the amended
theorem is itself closed; this restates its two components). -/
theorem empty_input_behavior_witness :
    rank_hcps ([] : List HCP) = (([] : List ScoredRow), ([] : List RankedRow)) :=
  empty_input_behavior.1
